import Mathlib

/-!
Shallow embedding of the `ManualSort` web component (a drag-to-reorder
controller for a list of elements) and proofs of the specification claims.

Modelling conventions:
- A DOM element's geometry (`DOMRect`) is a `Rect` of integer viewport
  coordinates; only comparisons and subtraction of coordinates occur in the
  source, so exact integers model the float arithmetic faithfully.
- An element's mutable presentation state (the style properties the
  controller writes) is a `Style` record; a cleared property is `none` / `""`.
- A child element is an `Item`; object identity is modelled by an `id`
  field, and mutation through a reference is modelled as an update of the
  list entry carrying that identity (or that position).
- `undefined` fields of the controller are `Option.none`; JavaScript's
  `findIndex` returning `-1` is kept as the integer `-1`.
- `Array.prototype.sort` with the source's comparator is stable per the
  ECMAScript specification; it is embedded as `List.mergeSort` (stable) with
  `le a b` standing for `comparator a b <= 0`.
- Opacity values (`.1`, `.7`, `1`) are exact rationals.
-/

namespace ManualSort

/-- A bounding box as reported by `getBoundingClientRect`. -/
structure Rect where
  left : Int
  top : Int
  right : Int
  bottom : Int
deriving Repr, DecidableEq

/-- The style properties the controller writes on a child element.
`transform = some (x, y)` models `translate(xpx, ypx)`; `none` models the
cleared property `''`.  `opacity = none` models the cleared property. -/
structure Style where
  transition : String
  transitionDuration : String
  transform : Option (Int × Int)
  opacity : Option ℚ
  order : Option Nat
deriving Repr, DecidableEq

/-- A sortable child element.  `id` models object identity; `bounds` is the
box `getBoundingClientRect` currently reports; `dragHandles` is the number of
descendant elements with class `drag-handle`; `handleDraggable` is the
`draggable` flag of the first such descendant (the one `querySelector`
returns). -/
structure Item where
  id : Nat
  bounds : Rect
  style : Style
  draggable : Bool
  dragHandles : Nat
  handleDraggable : Bool
deriving Repr, DecidableEq

/-- One entry of `this.sortablesAndBounds`: the child (modelled by its
position in the component's child list) paired with the bounds captured at
gesture start. -/
structure SnapEntry where
  child : Nat
  bounds : Rect
deriving Repr, DecidableEq

/-- The controller state relevant to the drag gesture: the child list (in DOM
order), the per-gesture snapshot `sortablesAndBounds`, and the two gesture
indices (`none` models an `undefined` field). -/
structure SortState where
  children : List Item
  sortablesAndBounds : List SnapEntry
  draggingItemIndex : Option Int
  dropIndex : Option Int
deriving Repr, DecidableEq

/-- The state the constructor establishes: no gesture fields assigned
(`undefined`) and an empty `sortablesAndBounds`. -/
def initState (children : List Item) : SortState :=
  { children := children
    sortablesAndBounds := []
    draggingItemIndex := none
    dropIndex := none }

/-- The outbound `sort` CustomEvent, carrying `detail.children`. -/
inductive SortEvent where
  | sort (children : List Item)
deriving Repr, DecidableEq

/-- The comparator of `sortablesInVisualOrder`, as the Boolean relation
`comparator a b <= 0` (so `-1` and `0` become `true`, `1` becomes `false`). -/
def visualLe (a b : Item) : Bool :=
  if a.bounds.top < b.bounds.top then true
  else if a.bounds.top > b.bounds.top then false
  else if a.bounds.left < b.bounds.left then true
  else if a.bounds.left > b.bounds.left then false
  else true

/-- `sortablesInVisualOrder()`: the children sorted by (top, then left) of
their current bounding boxes.  `Array.prototype.sort` is stable, so it is
embedded as the stable `List.mergeSort`. -/
def sortablesInVisualOrder (children : List Item) : List Item :=
  children.mergeSort visualLe

/-- JavaScript's `Array.prototype.findIndex`: the index of the first element
satisfying the predicate, `-1` if none does. -/
def jsFindIndex (p : α → Bool) : List α → Int
  | [] => -1
  | a :: l =>
    if p a then 0
    else if jsFindIndex p l = -1 then -1 else jsFindIndex p l + 1

/-- The predicate of `findSortableIndex`: the mouse point lies in the
entry's captured bounds (all comparisons inclusive). -/
def containsPoint (mouseX mouseY : Int) (child : SnapEntry) : Bool :=
  mouseX ≥ child.bounds.left && mouseX ≤ child.bounds.right &&
  mouseY ≥ child.bounds.top && mouseY ≤ child.bounds.bottom

/-- `findSortableIndex(mouseX, mouseY)`: first snapshot entry containing the
mouse point, `-1` if none. -/
def findSortableIndex (sortablesAndBounds : List SnapEntry) (mouseX mouseY : Int) : Int :=
  jsFindIndex (containsPoint mouseX mouseY) sortablesAndBounds

/-- Indexing `this.sortablesAndBounds[j].bounds` (totalised with a zero box;
every claim constrains the indices to be in range, where the default is
never consulted). -/
def boundsAt (snapshot : List SnapEntry) (j : Int) : Rect :=
  (snapshot.getD j.toNat { child := 0, bounds := ⟨0, 0, 0, 0⟩ }).bounds

/-- The body of the `previewNewPositions` loop for index `i`: the new style
of the child of snapshot entry `i` (transition, transform and opacity are
written; all other properties are untouched). -/
def previewItemStyle (snapshot : List SnapEntry) (draggingItemIndex newIndex : Int)
    (i : Nat) (st : Style) : Style :=
  let startIndex := min draggingItemIndex newIndex
  let endIndex := max draggingItemIndex newIndex
  let left := (boundsAt snapshot i).left
  let top := (boundsAt snapshot i).top
  let t : (Int × Int) × ℚ :=
    if (i : Int) = draggingItemIndex then
      (((boundsAt snapshot newIndex).left - left,
        (boundsAt snapshot newIndex).top - top), 1/10)
    else if (i : Int) < startIndex ∨ (i : Int) > endIndex then
      ((0, 0), 7/10)
    else if (i : Int) < draggingItemIndex then
      (((boundsAt snapshot ((i : Int) + 1)).left - left,
        (boundsAt snapshot ((i : Int) + 1)).top - top), 1)
    else
      (((boundsAt snapshot ((i : Int) - 1)).left - left,
        (boundsAt snapshot ((i : Int) - 1)).top - top), 1)
  { st with
    transition := "transform 100ms"
    transform := some t.1
    opacity := some t.2 }

/-- One iteration of the `previewNewPositions` loop: writes the computed
style onto the child referenced by snapshot entry `i`. -/
def previewStep (snapshot : List SnapEntry) (draggingItemIndex newIndex : Int)
    (i : Nat) (children : List Item) : List Item :=
  match snapshot[i]? with
  | none => children
  | some entry =>
    match children[entry.child]? with
    | none => children
    | some c =>
      children.set entry.child
        { c with style := previewItemStyle snapshot draggingItemIndex newIndex i c.style }

/-- The `previewNewPositions` loop run for indices `0, 1, ..., k - 1` in
order. -/
def previewLoop (snapshot : List SnapEntry) (draggingItemIndex newIndex : Int) :
    Nat → List Item → List Item
  | 0, children => children
  | k + 1, children =>
    previewStep snapshot draggingItemIndex newIndex k
      (previewLoop snapshot draggingItemIndex newIndex k children)

/-- `previewNewPositions(newIndex)`: no-op when `newIndex === -1` or
`draggingItemIndex === undefined`; otherwise runs the loop over the whole
snapshot, writing each child's transition/transform/opacity. -/
def previewNewPositions (s : SortState) (newIndex : Int) : SortState :=
  match s.draggingItemIndex with
  | none => s
  | some draggingItemIndex =>
    if newIndex = -1 then s
    else
      let previewed :=
        previewLoop s.sortablesAndBounds draggingItemIndex newIndex
          s.sortablesAndBounds.length s.children
      { s with children := previewed }

/-- The style writes of the `resetPreviewPositions` callback for visual
position `i`. -/
def resetStyle (i : Nat) (st : Style) : Style :=
  { st with
    transitionDuration := "0ms"
    transform := none
    opacity := none
    order := some i }

/-- Mutation of a child element through its reference: update the entry (or
entries) of the child list carrying the given identity. -/
def setStyleById (children : List Item) (id : Nat) (f : Style → Style) : List Item :=
  children.map fun c => if c.id = id then { c with style := f c.style } else c

/-- `resetPreviewPositions()`: iterates the freshly computed visual order
with indices, clearing transform/opacity, zeroing transition-duration, and
setting `style.order` to the visual position. -/
def resetPreviewPositions (children : List Item) : List Item :=
  (sortablesInVisualOrder children).enum.foldl
    (fun cs p => setStyleById cs p.2.id (resetStyle p.1)) children

/-- `handleDragover(e)`: guarded by `draggingItemIndex === -1`; hit-tests the
pointer, returns if the candidate index is unchanged (JavaScript `==`, under
which `undefined == -1` is false), otherwise previews and records the
candidate. -/
def handleDragover (s : SortState) (clientX clientY : Int) : SortState :=
  if s.draggingItemIndex = some (-1) then s
  else
    let newIndex := findSortableIndex s.sortablesAndBounds clientX clientY
    if s.dropIndex = some newIndex then s
    else
      let s1 := previewNewPositions s newIndex
      { s1 with dropIndex := some newIndex }

/-- `handleDragend(e)`: guarded by `draggingItemIndex === -1`; dispatches the
`sort` event with `detail.children = sortablesInVisualOrder()` (synchronous
dispatch, so listeners observe the pre-reset items), then resets the preview
positions. -/
def handleDragend (s : SortState) : SortState × List SortEvent :=
  if s.draggingItemIndex = some (-1) then (s, [])
  else
    let payload := sortablesInVisualOrder s.children
    ({ s with children := resetPreviewPositions s.children },
     [SortEvent.sort payload])

/-- `get useDragHandles`: JavaScript truthiness of the attribute string
(`!!getAttribute`), i.e. present and non-empty. -/
def jsTruthy : Option String → Bool
  | none => false
  | some s => !(s == "")

/-- `get useDragHandles()`: the `drag-handles` attribute is truthy and not
the string `"false"`. -/
def useDragHandles (dragHandlesAttr : Option String) : Bool :=
  jsTruthy dragHandlesAttr && !(dragHandlesAttr == some "false")

/-- `get createDragHandles()`: the `drag-handles` attribute equals
`"create"`. -/
def createDragHandles (dragHandlesAttr : Option String) : Bool :=
  dragHandlesAttr == some "create"

/-- `makeSortableDraggable(child)`.  If configured to create handles and the
child has none, a fresh (non-draggable) handle `div` is prepended.  Then if
handles are in use, the first `.drag-handle` descendant is made draggable —
the unguarded `!` dereference errors (`none`) when there is no such
descendant; otherwise the child itself is made draggable. -/
def makeSortableDraggable (dragHandlesAttr : Option String) (child : Item) :
    Option Item :=
  let child :=
    if createDragHandles dragHandlesAttr && child.dragHandles == 0 then
      { child with dragHandles := child.dragHandles + 1, handleDraggable := false }
    else child
  if useDragHandles dragHandlesAttr then
    if child.dragHandles == 0 then none
    else some { child with handleDraggable := true }
  else
    some { child with draggable := true }

/-- `makeAllSortablesDraggable()`: applies `makeSortableDraggable` to each
child in order; an error thrown for one child aborts the iteration. -/
def makeAllSortablesDraggable (dragHandlesAttr : Option String) :
    List Item → Option (List Item)
  | [] => some []
  | c :: cs =>
    match makeSortableDraggable dragHandlesAttr c with
    | none => none
    | some c1 =>
      match makeAllSortablesDraggable dragHandlesAttr cs with
      | none => none
      | some cs1 => some (c1 :: cs1)

/-! Concrete elements used by the example theorems and witnesses. -/

/-- The default style of a freshly declared element (no inline properties). -/
def exStyle : Style :=
  { transition := ""
    transitionDuration := ""
    transform := none
    opacity := none
    order := none }

/-- A plain example element: a 10 by 10 box whose top-left corner is
(`l`, `t`), with no handles and not draggable. -/
def exItem (i : Nat) (t l : Int) : Item :=
  { id := i
    bounds := { left := l, top := t, right := l + 10, bottom := t + 10 }
    style := exStyle
    draggable := false
    dragHandles := 0
    handleDraggable := false }

/-! ### Claim C10: interpretation of the drag-handles attribute value -/

/-- Claim C10: `useDragHandles` is true exactly when the `drag-handles`
attribute is present, non-empty, and not the string `"false"`; any other
non-empty value (for example `"yes"`) behaves like `"true"`
(`createDragHandles` is true only for the exact value `"create"`); an
empty-string attribute value behaves like an absent attribute. -/
theorem useDragHandles_spec (v : Option String) :
    (useDragHandles v = true ↔ ∃ s, v = some s ∧ s ≠ "" ∧ s ≠ "false") ∧
    (createDragHandles v = true ↔ v = some "create") ∧
    useDragHandles (some "yes") = true ∧ createDragHandles (some "yes") = false ∧
    useDragHandles (some "") = useDragHandles none ∧
    createDragHandles (some "") = createDragHandles none := by
  refine ⟨?_, ?_, ?_, ?_, ?_, ?_⟩
  · cases v with
    | none => simp [useDragHandles, jsTruthy]
    | some s => simp [useDragHandles, jsTruthy]
  · cases v with
    | none => simp [createDragHandles]
    | some s => simp [createDragHandles]
  · simp [useDragHandles, jsTruthy]
  · simp [createDragHandles]
  · simp [useDragHandles, jsTruthy]
  · simp [createDragHandles]

/-- Witness for C10 at the concrete value `"yes"`. -/
theorem useDragHandles_spec_witness :
    useDragHandles (some "yes") = true ∧ createDragHandles (some "yes") = false :=
  ⟨(useDragHandles_spec (some "yes")).2.2.1, (useDragHandles_spec (some "yes")).2.2.2.1⟩

/-! ### Claim C9: missing caller-provided handle fails loudly -/

/-- Claim C9: with `useDragHandles` true and `createDragHandles` false, an
item with no `.drag-handle` sub-element makes `makeSortableDraggable` fail at
the handle lookup (the unguarded dereference yields `none`) rather than
silently succeed; when every item has a handle this error branch is
unreachable. -/
theorem makeSortableDraggable_missingHandle (attr : Option String) (c : Item) :
    (useDragHandles attr = true → createDragHandles attr = false →
      c.dragHandles = 0 → makeSortableDraggable attr c = none) ∧
    (useDragHandles attr = true → 0 < c.dragHandles →
      ∃ c1, makeSortableDraggable attr c = some c1) := by
  constructor
  · intro hu hc h0
    simp [makeSortableDraggable, hu, hc, h0]
  · intro hu hpos
    have h0 : (c.dragHandles == 0) = false := by
      simp [Nat.pos_iff_ne_zero.mp hpos]
    simp [makeSortableDraggable, hu, h0]

/-- Witness for C9: a handle-requiring configuration with a handle-less item
errors, and succeeds on an item that has a handle. -/
theorem makeSortableDraggable_missingHandle_witness :
    makeSortableDraggable (some "true") (exItem 0 0 0) = none ∧
    ∃ c1, makeSortableDraggable (some "true")
      { exItem 1 0 0 with dragHandles := 1 } = some c1 :=
  ⟨(makeSortableDraggable_missingHandle (some "true") (exItem 0 0 0)).1
      (by decide) (by decide) rfl,
   (makeSortableDraggable_missingHandle (some "true")
      { exItem 1 0 0 with dragHandles := 1 }).2 (by decide) (by decide)⟩

/-! ### Claim C8: drag-handles equals create injects exactly one handle -/

/-- With `drag-handles="create"`, a single call on an item with at most one
handle yields exactly one handle, carried draggability on the handle, and is
idempotent. -/
theorem makeSortableDraggable_create (c : Item) (h1 : c.dragHandles ≤ 1)
    (h2 : c.draggable = false) :
    ∃ c1, makeSortableDraggable (some "create") c = some c1 ∧
      c1.dragHandles = 1 ∧ c1.handleDraggable = true ∧ c1.draggable = false ∧
      makeSortableDraggable (some "create") c1 = some c1 := by
  have hu : useDragHandles (some "create") = true := by decide
  have hc : createDragHandles (some "create") = true := by decide
  rcases Nat.le_one_iff_eq_zero_or_eq_one.mp h1 with h0 | h0
  · refine ⟨{ c with dragHandles := 1, handleDraggable := true }, ?_, rfl, rfl, h2, ?_⟩
    · simp [makeSortableDraggable, hu, hc, h0]
    · simp [makeSortableDraggable, hu, hc]
  · refine ⟨{ c with handleDraggable := true }, ?_, h0, rfl, h2, ?_⟩
    · simp [makeSortableDraggable, hu, hc, h0]
    · simp [makeSortableDraggable, hu, hc, h0]

/-- Claim C8: with `drag-handles="create"`, making the items of a list
sortable gives each item exactly one `.drag-handle` sub-element (none is
added to an item that already has one, and repeating the whole operation
adds none), and the native-draggable capability sits on the handle, not on
the item. -/
theorem makeAllSortablesDraggable_create (children : List Item)
    (h : ∀ c ∈ children, c.dragHandles ≤ 1 ∧ c.draggable = false) :
    ∃ l, makeAllSortablesDraggable (some "create") children = some l ∧
      l.length = children.length ∧
      (∀ c1 ∈ l, c1.dragHandles = 1 ∧ c1.handleDraggable = true ∧
        c1.draggable = false) ∧
      makeAllSortablesDraggable (some "create") l = some l := by
  induction children with
  | nil => exact ⟨[], rfl, rfl, by simp, rfl⟩
  | cons c cs ih =>
    obtain ⟨c1, hc1, hh, hhd, hdr, hrep⟩ :=
      makeSortableDraggable_create c (h c (List.mem_cons_self c cs)).1
        (h c (List.mem_cons_self c cs)).2
    obtain ⟨l, hl, hlen, hall, hrepl⟩ := ih fun x hx => h x (List.mem_cons_of_mem c hx)
    refine ⟨c1 :: l, ?_, by simp [hlen], ?_, ?_⟩
    · simp [makeAllSortablesDraggable, hc1, hl]
    · intro c2 hc2
      rcases List.mem_cons.mp hc2 with h | h
      · exact h ▸ ⟨hh, hhd, hdr⟩
      · exact hall c2 h
    · simp [makeAllSortablesDraggable, hrep, hrepl]

/-- Witness for C8 on a two-item list with no handles. -/
theorem makeAllSortablesDraggable_create_witness :
    ∃ l, makeAllSortablesDraggable (some "create") [exItem 0 0 0, exItem 1 20 0] = some l ∧
      ∀ c1 ∈ l, c1.dragHandles = 1 ∧ c1.handleDraggable = true ∧ c1.draggable = false := by
  obtain ⟨l, h1, _, h3, _⟩ :=
    makeAllSortablesDraggable_create [exItem 0 0 0, exItem 1 20 0] (by decide)
  exact ⟨l, h1, h3⟩

/-! ### Claim C5: gesture end with an active gesture -/

/-- Claim C5: a gesture-end arriving while the dragged-item index is a
defined non-sentinel value dispatches exactly one `sort` event whose payload
is the visual order computed fresh from the items' current boxes (the
snapshot `sortablesAndBounds` plays no role), and then resets the preview;
the payload is the pre-reset child list, so the synchronous dispatch happens
before the reset. -/
theorem handleDragend_activeGesture (s : SortState) (d : Int)
    (hd : s.draggingItemIndex = some d) (hne : d ≠ -1) :
    handleDragend s =
      ({ s with children := resetPreviewPositions s.children },
       [SortEvent.sort (sortablesInVisualOrder s.children)]) := by
  have hguard : ¬s.draggingItemIndex = some (-1) := by
    rw [hd]
    simp [hne]
  simp [handleDragend, hguard]

/-- An active-gesture state over two stacked example items: item 0 is being
dragged, no candidate yet. -/
def exGesture : SortState :=
  { children := [exItem 0 0 0, exItem 1 20 0]
    sortablesAndBounds := [⟨0, (exItem 0 0 0).bounds⟩, ⟨1, (exItem 1 20 0).bounds⟩]
    draggingItemIndex := some 0
    dropIndex := none }

/-- Witness for C5 at the concrete active-gesture state. -/
theorem handleDragend_activeGesture_witness :
    handleDragend exGesture =
      ({ exGesture with children := resetPreviewPositions exGesture.children },
       [SortEvent.sort (sortablesInVisualOrder exGesture.children)]) :=
  handleDragend_activeGesture exGesture 0 rfl (by decide)

/-! ### Claim C4: gesture events without a preceding gesture-start -/

/-- The two stacked example items, already in visual order. -/
theorem exPair_visualOrder :
    sortablesInVisualOrder [exItem 0 0 0, exItem 1 20 0] =
      [exItem 0 0 0, exItem 1 20 0] :=
  List.mergeSort_of_sorted (by decide)

/-- Claim C4 is violated by the code (code bug): the constructor leaves
`draggingItemIndex` as `undefined`, but the no-gesture guard of
`handleDragover`/`handleDragend` compares it with `-1` (and
`undefined === -1` is false).  In the fresh state, a gesture-end therefore
dispatches a `sort` event and rewrites every item's style, and a
gesture-move writes the candidate index — none of which is a no-op. -/
theorem handleDragend_withoutGesture_dispatches :
    (handleDragend (initState [exItem 0 0 0, exItem 1 20 0])).2 =
      [SortEvent.sort [exItem 0 0 0, exItem 1 20 0]] ∧
    (handleDragend (initState [exItem 0 0 0, exItem 1 20 0])).1.children ≠
      [exItem 0 0 0, exItem 1 20 0] ∧
    (handleDragover (initState [exItem 0 0 0, exItem 1 20 0]) 0 0).dropIndex ≠
      (initState [exItem 0 0 0, exItem 1 20 0]).dropIndex := by
  have hguard : ¬(initState [exItem 0 0 0, exItem 1 20 0]).draggingItemIndex
      = some (-1) := by decide
  refine ⟨?_, ?_, ?_⟩
  · simp [handleDragend, hguard, initState, exPair_visualOrder]
  · simp only [handleDragend, hguard, if_neg, ite_false, initState,
      resetPreviewPositions, exPair_visualOrder]
    decide
  · simp only [handleDragover]
    decide

/-! ### Claim C2: hit-test correctness -/

/-- `findIndex` yields `-1` or a genuine (non-negative) index. -/
theorem jsFindIndex_neg_one_or_nonneg (p : α → Bool) (l : List α) :
    jsFindIndex p l = -1 ∨ 0 ≤ jsFindIndex p l := by
  induction l with
  | nil => left; rfl
  | cons a l ih =>
    by_cases h : p a = true
    · right
      simp [jsFindIndex, h]
    · rcases ih with h2 | h2
      · left
        simp [jsFindIndex, h, h2]
      · right
        have h3 : jsFindIndex p l ≠ -1 := by omega
        simp only [jsFindIndex, h, if_neg h3, ite_false, Bool.false_eq_true]
        omega

/-- `findIndex` yields `-1` exactly when no element satisfies the
predicate. -/
theorem jsFindIndex_eq_neg_one_iff (p : α → Bool) (l : List α) :
    jsFindIndex p l = -1 ↔ ∀ a ∈ l, p a = false := by
  induction l with
  | nil => simp [jsFindIndex]
  | cons a l ih =>
    by_cases h : p a = true
    · simp [jsFindIndex, h]
    · have h' : p a = false := Bool.eq_false_iff.mpr h
      rcases jsFindIndex_neg_one_or_nonneg p l with h2 | h2
      · simp [jsFindIndex, h', h2]
        exact ih.mp h2
      · have h3 : jsFindIndex p l ≠ -1 := by omega
        simp only [jsFindIndex, h', Bool.false_eq_true, ite_false, if_neg h3,
          List.mem_cons]
        constructor
        · intro hbad
          omega
        · intro hall
          exact absurd (ih.mpr fun b hb => hall b (Or.inr hb)) h3

/-- `findIndex` yields the index of the first match. -/
theorem jsFindIndex_eq_of_first (p : α → Bool) (l : List α) :
    ∀ (k : Nat) (hk : k < l.length), p (l.get ⟨k, hk⟩) = true →
      (∀ (j : Nat) (hj : j < k), p (l.get ⟨j, Nat.lt_trans hj hk⟩) = false) →
      jsFindIndex p l = k := by
  induction l with
  | nil => intro k hk; exact absurd hk (Nat.not_lt_zero k)
  | cons a l ih =>
    intro k hk hp hfirst
    cases k with
    | zero =>
      simp only [List.get] at hp
      simp [jsFindIndex, hp]
    | succ k =>
      have ha : p a = false := hfirst 0 (Nat.succ_pos k)
      have hrec : jsFindIndex p l = k := by
        refine ih k (Nat.lt_of_succ_lt_succ hk) (by simpa using hp) ?_
        intro j hj
        simpa using hfirst (j + 1) (Nat.succ_lt_succ hj)
      have h3 : jsFindIndex p l ≠ -1 := by omega
      simp only [jsFindIndex, ha, Bool.false_eq_true, ite_false, if_neg h3, hrec]
      omega

/-- Claim C2: the hit test returns the index of the first snapshot entry
whose box contains the point under inclusive comparisons, and `-1` when no
box contains it; for pairwise non-overlapping boxes it returns the unique
containing index. -/
theorem findSortableIndex_spec (snapshot : List SnapEntry) (x y : Int) :
    (findSortableIndex snapshot x y = -1 ↔
      ∀ e ∈ snapshot, containsPoint x y e = false) ∧
    (∀ (k : Nat) (hk : k < snapshot.length),
      containsPoint x y (snapshot.get ⟨k, hk⟩) = true →
      (∀ (j : Nat) (hj : j < k),
        containsPoint x y (snapshot.get ⟨j, Nat.lt_trans hj hk⟩) = false) →
      findSortableIndex snapshot x y = k) ∧
    (snapshot.Pairwise (fun e1 e2 => ∀ a b : Int,
        containsPoint a b e1 = false ∨ containsPoint a b e2 = false) →
      ∀ (k : Nat) (hk : k < snapshot.length),
        containsPoint x y (snapshot.get ⟨k, hk⟩) = true →
        findSortableIndex snapshot x y = k) := by
  refine ⟨jsFindIndex_eq_neg_one_iff _ _,
    fun k hk hp hf => jsFindIndex_eq_of_first _ _ k hk hp hf, ?_⟩
  intro hpair k hk hp
  apply jsFindIndex_eq_of_first _ _ k hk hp
  intro j hj
  have hdis := List.pairwise_iff_get.mp hpair ⟨j, Nat.lt_trans hj hk⟩ ⟨k, hk⟩ hj
  rcases hdis x y with h | h
  · exact h
  · rw [hp] at h
    cases h

/-- Witness for C2: the point (5, 25) lies in the second example box only. -/
theorem findSortableIndex_spec_witness :
    findSortableIndex [⟨0, (exItem 0 0 0).bounds⟩, ⟨1, (exItem 1 20 0).bounds⟩] 5 25 = 1 :=
  (findSortableIndex_spec
      [⟨0, (exItem 0 0 0).bounds⟩, ⟨1, (exItem 1 20 0).bounds⟩] 5 25).2.1
    1 (by decide) (by decide) (by decide)

/-! ### Claim C3: visual order is a stable sort by (top, then left) -/

/-- The comparator relation, spelled arithmetically: lexicographic
(top, then left). -/
theorem visualLe_iff (a b : Item) :
    visualLe a b = true ↔ a.bounds.top < b.bounds.top ∨
      (a.bounds.top = b.bounds.top ∧ a.bounds.left ≤ b.bounds.left) := by
  unfold visualLe
  split_ifs with h1 h2 h3 h4 <;> simp_all <;> omega

/-- The comparator is transitive. -/
theorem visualLe_trans (a b c : Item) (h1 : visualLe a b = true)
    (h2 : visualLe b c = true) : visualLe a c = true := by
  rw [visualLe_iff] at h1 h2 ⊢
  omega

/-- The comparator is total. -/
theorem visualLe_total (a b : Item) : visualLe a b || visualLe b a := by
  rcases Bool.eq_false_or_eq_true (visualLe a b) with h | h
  · simp [h]
  · have h2 : visualLe b a = true := by
      rw [visualLe_iff]
      have h3 : ¬(visualLe a b = true) := by simp [h]
      rw [visualLe_iff] at h3
      omega
    simp [h2]

/-- Claim C3: `sortablesInVisualOrder` is a stable sort of the child
sequence by (top, then left): it is a permutation, pairwise ordered
lexicographically by (top, left); with pairwise distinct tops it is strictly
top-ascending; and two children agreeing on both keys keep their relative
order from the child sequence. -/
theorem sortablesInVisualOrder_spec (children : List Item) :
    List.Perm (sortablesInVisualOrder children) children ∧
    List.Pairwise (fun a b => a.bounds.top < b.bounds.top ∨
        (a.bounds.top = b.bounds.top ∧ a.bounds.left ≤ b.bounds.left))
      (sortablesInVisualOrder children) ∧
    (List.Pairwise (fun a b => a.bounds.top ≠ b.bounds.top) children →
      List.Pairwise (fun a b => a.bounds.top < b.bounds.top)
        (sortablesInVisualOrder children)) ∧
    (∀ a b, List.Sublist [a, b] children → a.bounds.top = b.bounds.top →
      a.bounds.left = b.bounds.left →
      List.Sublist [a, b] (sortablesInVisualOrder children)) := by
  have hsorted := List.sorted_mergeSort visualLe_trans visualLe_total children
  refine ⟨List.mergeSort_perm children visualLe, ?_, ?_, ?_⟩
  · exact hsorted.imp fun hab => (visualLe_iff _ _).mp hab
  · intro hne
    have hne2 : List.Pairwise (fun a b : Item => a.bounds.top ≠ b.bounds.top)
        (sortablesInVisualOrder children) :=
      ((List.mergeSort_perm children visualLe).pairwise_iff
        fun h => h.symm).mpr hne
    refine (hsorted.and hne2).imp ?_
    intro a b hab
    have h1 := (visualLe_iff a b).mp hab.1
    have h2 := hab.2
    omega
  · intro a b hsub htop hleft
    exact List.pair_sublist_mergeSort visualLe_trans visualLe_total
      ((visualLe_iff a b).mpr (Or.inr ⟨htop, le_of_eq hleft⟩)) hsub

/-- Witness for C3 on two items whose document order is the reverse of their
on-screen order. -/
theorem sortablesInVisualOrder_spec_witness :
    List.Pairwise (fun a b : Item => a.bounds.top < b.bounds.top)
      (sortablesInVisualOrder [exItem 0 20 0, exItem 1 0 0]) :=
  (sortablesInVisualOrder_spec [exItem 0 20 0, exItem 1 0 0]).2.2.1 (by decide)

/-! ### Claim C7: the preview writes only transient presentation state -/

/-- Everything about an item except the three presentation properties the
preview loop writes (transition, transform, opacity): identity, geometry,
draggability, handles, and the remaining style properties. -/
def Item.frame (c : Item) : Nat × Rect × Bool × Nat × Bool × Option Nat × String :=
  (c.id, c.bounds, c.draggable, c.dragHandles, c.handleDraggable,
   c.style.order, c.style.transitionDuration)

/-- One preview iteration preserves the child-list length. -/
theorem previewStep_length (snapshot : List SnapEntry) (d n : Int) (i : Nat)
    (cs : List Item) : (previewStep snapshot d n i cs).length = cs.length := by
  unfold previewStep
  cases h1 : snapshot[i]? with
  | none => rfl
  | some e =>
    dsimp only
    cases h2 : cs[e.child]? with
    | none => rfl
    | some c => simp

/-- The whole preview loop preserves the child-list length. -/
theorem previewLoop_length (snapshot : List SnapEntry) (d n : Int) (k : Nat)
    (cs : List Item) : (previewLoop snapshot d n k cs).length = cs.length := by
  induction k with
  | zero => rfl
  | succ k ih => rw [previewLoop, previewStep_length, ih]

/-- One preview iteration preserves every item's frame. -/
theorem previewStep_frame (snapshot : List SnapEntry) (d n : Int) (i : Nat)
    (cs : List Item) (q : Nat) :
    ((previewStep snapshot d n i cs)[q]?).map Item.frame =
      (cs[q]?).map Item.frame := by
  unfold previewStep
  cases h1 : snapshot[i]? with
  | none => rfl
  | some e =>
    dsimp only
    cases hc : cs[e.child]? with
    | none => rfl
    | some c =>
      by_cases hq : e.child = q
      · subst hq
        have hlt : e.child < cs.length := (List.getElem?_eq_some.mp hc).1
        rw [List.getElem?_set_self hlt, hc]
        rfl
      · rw [List.getElem?_set_ne hq]

/-- The whole preview loop preserves every item's frame. -/
theorem previewLoop_frame (snapshot : List SnapEntry) (d n : Int) (k : Nat)
    (cs : List Item) (q : Nat) :
    ((previewLoop snapshot d n k cs)[q]?).map Item.frame =
      (cs[q]?).map Item.frame := by
  induction k with
  | zero => rfl
  | succ k ih => rw [previewLoop, previewStep_frame, ih]

/-- Claim C7: `previewNewPositions` never mutates the snapshot or the
gesture indices, and never changes the child sequence structurally — no item
is added, removed or moved, and each item keeps its identity, geometry,
draggability, handles, `order` and `transition-duration`; only transition,
transform and opacity may change. -/
theorem previewNewPositions_frameEffect (s : SortState) (newIndex : Int) :
    (previewNewPositions s newIndex).sortablesAndBounds = s.sortablesAndBounds ∧
    (previewNewPositions s newIndex).draggingItemIndex = s.draggingItemIndex ∧
    (previewNewPositions s newIndex).dropIndex = s.dropIndex ∧
    (previewNewPositions s newIndex).children.length = s.children.length ∧
    ∀ q : Nat, (((previewNewPositions s newIndex).children[q]?).map Item.frame)
      = ((s.children[q]?).map Item.frame) := by
  cases hd : s.draggingItemIndex with
  | none => simp [previewNewPositions, hd]
  | some d =>
    by_cases hn : newIndex = -1
    · simp [previewNewPositions, hd, hn]
    · simp only [previewNewPositions, hd, if_neg hn]
      exact ⟨trivial, trivial, trivial, previewLoop_length _ _ _ _ _,
        fun q => previewLoop_frame _ _ _ _ _ _⟩

/-! ### Claim C1: the preview's per-item translation and opacity -/

/-- A preview iteration whose snapshot entry references a different child
leaves child `q` unchanged. -/
theorem previewStep_getElem_of_ne (snapshot : List SnapEntry) (d n : Int)
    (i : Nat) (cs : List Item) (q : Nat)
    (h : ∀ e, snapshot[i]? = some e → e.child ≠ q) :
    (previewStep snapshot d n i cs)[q]? = cs[q]? := by
  unfold previewStep
  cases h1 : snapshot[i]? with
  | none => rfl
  | some e =>
    dsimp only
    cases hc : cs[e.child]? with
    | none => rfl
    | some c => rw [List.getElem?_set_ne (h e h1)]

/-- Loop iterations whose snapshot entries all reference other children
leave child `q` unchanged. -/
theorem previewLoop_getElem_of_ne (snapshot : List SnapEntry) (d n : Int)
    (k : Nat) (cs : List Item) (q : Nat)
    (h : ∀ j, j < k → ∀ e, snapshot[j]? = some e → e.child ≠ q) :
    (previewLoop snapshot d n k cs)[q]? = cs[q]? := by
  induction k with
  | zero => rfl
  | succ k ih =>
    rw [previewLoop,
      previewStep_getElem_of_ne _ _ _ _ _ _ (h k (Nat.lt_succ_self k)),
      ih fun j hj => h j (Nat.lt_succ_of_lt hj)]

/-- If snapshot entry `i` is the only one referencing its child, after the
loop that child carries exactly the style computed for iteration `i`. -/
theorem previewLoop_getElem_written (snapshot : List SnapEntry) (d n : Int)
    (k i : Nat) (cs : List Item) (e : SnapEntry) (c : Item)
    (hik : i < k) (hsnap : snapshot[i]? = some e)
    (huniq : ∀ j, j < k → j ≠ i → ∀ e2, snapshot[j]? = some e2 →
      e2.child ≠ e.child)
    (hc : cs[e.child]? = some c) :
    (previewLoop snapshot d n k cs)[e.child]? =
      some { c with style := previewItemStyle snapshot d n i c.style } := by
  induction k with
  | zero => omega
  | succ k ih =>
    rw [previewLoop]
    by_cases hik2 : i = k
    · subst hik2
      have hpre : (previewLoop snapshot d n i cs)[e.child]? = some c := by
        rw [previewLoop_getElem_of_ne, hc]
        intro j hj e2 hje2
        exact huniq j (Nat.lt_succ_of_lt hj) (Nat.ne_of_lt hj) e2 hje2
      unfold previewStep
      rw [hsnap]
      dsimp only
      rw [hpre]
      dsimp only
      have hlt : e.child < (previewLoop snapshot d n i cs).length :=
        (List.getElem?_eq_some.mp hpre).1
      rw [List.getElem?_set_self hlt]
    · have hik3 : i < k := by omega
      rw [previewStep_getElem_of_ne _ _ _ _ _ _
          (fun e2 h2 => huniq k (Nat.lt_succ_self k) (fun hh => hik2 hh.symm) e2 h2),
        ih hik3 fun j hj hne => huniq j (Nat.lt_succ_of_lt hj) hne]

/-- Claim C1: for a defined in-snapshot dragged index and a non-sentinel
candidate index, with `lo = min(draggedIndex, candidateIndex)` and
`hi = max(draggedIndex, candidateIndex)`, the preview writes entry `i`'s
child as follows: the dragged entry translates to the candidate entry's
snapshot position with opacity 0.1; entries outside `[lo, hi]` get zero
translation and opacity 0.7; entries with `lo <= i < draggedIndex` translate
to entry `i + 1`'s snapshot position with opacity 1; entries with
`draggedIndex < i <= hi` translate to entry `i - 1`'s snapshot position with
opacity 1. -/
theorem previewNewPositions_spec (s : SortState) (d newIndex : Int) (i : Nat)
    (hd : s.draggingItemIndex = some d)
    (hd0 : 0 ≤ d) (hdlen : d < (s.sortablesAndBounds.length : Int))
    (hn0 : 0 ≤ newIndex) (hnlen : newIndex < (s.sortablesAndBounds.length : Int))
    (hvalid : ∀ e ∈ s.sortablesAndBounds, e.child < s.children.length)
    (hnodup : (s.sortablesAndBounds.map SnapEntry.child).Nodup)
    (hi : i < s.sortablesAndBounds.length) :
    ∃ e c, s.sortablesAndBounds[i]? = some e ∧ s.children[e.child]? = some c ∧
      ∃ c1, (previewNewPositions s newIndex).children[e.child]? = some c1 ∧
        c1.style.transition = "transform 100ms" ∧
        ((i : Int) = d →
          c1.style.transform = some
            ((boundsAt s.sortablesAndBounds newIndex).left -
              (boundsAt s.sortablesAndBounds i).left,
             (boundsAt s.sortablesAndBounds newIndex).top -
              (boundsAt s.sortablesAndBounds i).top) ∧
          c1.style.opacity = some (1/10)) ∧
        ((i : Int) < min d newIndex ∨ (i : Int) > max d newIndex →
          c1.style.transform = some (0, 0) ∧ c1.style.opacity = some (7/10)) ∧
        (min d newIndex ≤ (i : Int) → (i : Int) < d →
          c1.style.transform = some
            ((boundsAt s.sortablesAndBounds ((i : Int) + 1)).left -
              (boundsAt s.sortablesAndBounds i).left,
             (boundsAt s.sortablesAndBounds ((i : Int) + 1)).top -
              (boundsAt s.sortablesAndBounds i).top) ∧
          c1.style.opacity = some 1) ∧
        (d < (i : Int) → (i : Int) ≤ max d newIndex →
          c1.style.transform = some
            ((boundsAt s.sortablesAndBounds ((i : Int) - 1)).left -
              (boundsAt s.sortablesAndBounds i).left,
             (boundsAt s.sortablesAndBounds ((i : Int) - 1)).top -
              (boundsAt s.sortablesAndBounds i).top) ∧
          c1.style.opacity = some 1) := by
  have hsnap : s.sortablesAndBounds[i]? =
      some (s.sortablesAndBounds.get ⟨i, hi⟩) := List.getElem?_eq_getElem hi
  set e := s.sortablesAndBounds.get ⟨i, hi⟩ with he
  have hclt : e.child < s.children.length :=
    hvalid e (List.getElem?_mem hsnap)
  have hc : s.children[e.child]? = some (s.children.get ⟨e.child, hclt⟩) :=
    List.getElem?_eq_getElem hclt
  set c := s.children.get ⟨e.child, hclt⟩ with hcdef
  have hinj : ∀ j, ∀ e2, s.sortablesAndBounds[j]? = some e2 →
      e2.child = e.child → j = i := by
    intro j e2 hje2 hcc
    by_contra hne
    have hjlen : j < s.sortablesAndBounds.length :=
      (List.getElem?_eq_some.mp hje2).1
    have h1 : (s.sortablesAndBounds.map SnapEntry.child)[j]? = some e.child := by
      rw [List.getElem?_map, hje2]
      simp [hcc]
    have h2 : (s.sortablesAndBounds.map SnapEntry.child)[i]? = some e.child := by
      rw [List.getElem?_map, hsnap]
      rfl
    rcases Nat.lt_or_ge j i with hlt | hge
    · exact (List.nodup_iff_getElem?_ne_getElem?.mp hnodup j i hlt
        (by simpa using hi)) (h1.trans h2.symm)
    · have hlt2 : i < j := by omega
      exact (List.nodup_iff_getElem?_ne_getElem?.mp hnodup i j hlt2
        (by simpa using hjlen)) (h2.trans h1.symm)
  have huniq : ∀ j, j < s.sortablesAndBounds.length → j ≠ i →
      ∀ e2, s.sortablesAndBounds[j]? = some e2 → e2.child ≠ e.child :=
    fun j _ hne e2 hje2 hcc => hne (hinj j e2 hje2 hcc)
  have hwritten := previewLoop_getElem_written s.sortablesAndBounds d newIndex
    s.sortablesAndBounds.length i s.children e c hi hsnap huniq hc
  have hne1 : ¬(newIndex = -1) := by omega
  have hres : (previewNewPositions s newIndex).children[e.child]? =
      some { c with style := previewItemStyle s.sortablesAndBounds d newIndex i c.style } := by
    simp only [previewNewPositions, hd, if_neg hne1]
    exact hwritten
  refine ⟨e, c, hsnap, hc,
    { c with style := previewItemStyle s.sortablesAndBounds d newIndex i c.style },
    hres, rfl, ?_, ?_, ?_, ?_⟩
  · intro hcase
    simp only [previewItemStyle]
    rw [if_pos hcase]
    exact ⟨rfl, rfl⟩
  · intro hcase
    have hne : ¬((i : Int) = d) := by omega
    simp only [previewItemStyle]
    rw [if_neg hne, if_pos hcase]
    exact ⟨rfl, rfl⟩
  · intro hcase1 hcase2
    have hne : ¬((i : Int) = d) := by omega
    have hout : ¬((i : Int) < min d newIndex ∨ (i : Int) > max d newIndex) := by
      omega
    simp only [previewItemStyle]
    rw [if_neg hne, if_neg hout, if_pos hcase2]
    exact ⟨rfl, rfl⟩
  · intro hcase1 hcase2
    have hne : ¬((i : Int) = d) := by omega
    have hout : ¬((i : Int) < min d newIndex ∨ (i : Int) > max d newIndex) := by
      omega
    have hlt : ¬((i : Int) < d) := by omega
    simp only [previewItemStyle]
    rw [if_neg hne, if_neg hout, if_neg hlt]
    exact ⟨rfl, rfl⟩

/-- Three stacked example items. -/
def wItems : List Item := [exItem 0 0 0, exItem 1 10 0, exItem 2 20 0]

/-- The gesture-start snapshot of `wItems`. -/
def wSnap : List SnapEntry :=
  [⟨0, (exItem 0 0 0).bounds⟩, ⟨1, (exItem 1 10 0).bounds⟩,
   ⟨2, (exItem 2 20 0).bounds⟩]

/-- An active gesture dragging the bottom item (snapshot index 2). -/
def wGesture : SortState :=
  { children := wItems
    sortablesAndBounds := wSnap
    draggingItemIndex := some 2
    dropIndex := none }

/-- Witness for C1: dragging snapshot entry 2 over candidate slot 0, the
middle item (entry 1, inside the range and before the dragged index) slides
one slot down — translation (0, 10) — at full opacity. -/
theorem previewNewPositions_spec_witness :
    ∃ c1, (previewNewPositions wGesture 0).children[1]? = some c1 ∧
      c1.style.transform = some ((0 : Int), (10 : Int)) ∧
      c1.style.opacity = some 1 := by
  obtain ⟨e, c, hsnap, hc, c1, hres, htrans, hcase1, hcase2, hcase3, hcase4⟩ :=
    previewNewPositions_spec wGesture 2 0 1 rfl (by decide) (by decide)
      (by decide) (by decide) (by decide) (by decide) (by decide)
  have h0 : (some e : Option SnapEntry) = some ⟨1, (exItem 1 10 0).bounds⟩ := by
    rw [← hsnap]
    rfl
  have he : e = ⟨1, (exItem 1 10 0).bounds⟩ := Option.some.inj h0
  rw [he] at hres
  have h3 := hcase3 (by decide) (by decide)
  refine ⟨c1, hres, ?_, h3.2⟩
  rw [h3.1]
  rfl

/-! ### Claim C6: effect and idempotence of the preview reset -/

/-- `merge` commutes with mapping a function the comparator cannot
distinguish. -/
theorem merge_map_comm {α : Type} (f : α → α) (le : α → α → Bool)
    (hf : ∀ a b, le (f a) (f b) = le a b) :
    ∀ xs ys : List α, (xs.map f).merge (ys.map f) le = (xs.merge ys le).map f
  | [], ys => by simp
  | x :: xs, [] => by simp
  | x :: xs, y :: ys => by
    rw [List.map_cons, List.map_cons, List.cons_merge_cons, List.cons_merge_cons,
      hf]
    by_cases h : le x y = true
    · rw [if_pos h, if_pos h, List.map_cons]
      exact congrArg (List.cons (f x)) (merge_map_comm f le hf xs (y :: ys))
    · rw [if_neg h, if_neg h, List.map_cons]
      exact congrArg (List.cons (f y)) (merge_map_comm f le hf (x :: xs) ys)
termination_by xs ys => xs.length + ys.length

/-- `mergeSort` commutes with mapping a function the comparator cannot
distinguish. -/
theorem mergeSort_map_comm {α : Type} (f : α → α) (le : α → α → Bool)
    (hf : ∀ a b, le (f a) (f b) = le a b) :
    ∀ l : List α, (l.map f).mergeSort le = (l.mergeSort le).map f
  | [] => by simp
  | [a] => by simp
  | a :: b :: xs => by
    have h1 : ((a :: b :: xs).take ((xs.length + 1 + 1 + 1) / 2)).length <
        xs.length + 1 + 1 := by
      simp [List.length_take]
      omega
    have h2 : ((a :: b :: xs).drop ((xs.length + 1 + 1 + 1) / 2)).length <
        xs.length + 1 + 1 := by
      simp [List.length_drop]
      omega
    rw [show (a :: b :: xs).map f = f a :: f b :: xs.map f from rfl]
    rw [List.mergeSort, List.mergeSort]
    simp only [List.splitInTwo_fst, List.splitInTwo_snd, List.length_cons,
      List.length_map]
    rw [show f a :: f b :: xs.map f = (a :: b :: xs).map f from rfl]
    rw [← List.map_take, ← List.map_drop]
    rw [mergeSort_map_comm f le hf ((a :: b :: xs).take ((xs.length + 1 + 1 + 1) / 2)),
      mergeSort_map_comm f le hf ((a :: b :: xs).drop ((xs.length + 1 + 1 + 1) / 2)),
      merge_map_comm f le hf]
termination_by l => l.length

/-- A fold of pointwise list maps is the map of the pointwise folds. -/
theorem foldl_map_pointwise {α β : Type} (g : β → α → α) (l : List β)
    (cs : List α) :
    l.foldl (fun cs2 p => cs2.map (g p)) cs =
      cs.map fun c => l.foldl (fun c2 p => g p c2) c := by
  induction l generalizing cs with
  | nil => simp
  | cons p l ih =>
    rw [List.foldl_cons, ih, List.map_map]
    rfl

/-- What the reset fold does to one element: each enumerated visual-order
entry whose item has this element's identity overwrites its style. -/
def applyReset (l : List (Nat × Item)) (c : Item) : Item :=
  l.foldl
    (fun c2 p =>
      if c2.id = p.2.id then { c2 with style := resetStyle p.1 c2.style } else c2)
    c

/-- `resetPreviewPositions` as a pointwise map over the child list. -/
theorem resetPreviewPositions_eq_map (children : List Item) :
    resetPreviewPositions children =
      children.map (applyReset (sortablesInVisualOrder children).enum) := by
  unfold resetPreviewPositions applyReset setStyleById
  exact foldl_map_pointwise _ _ _

/-- An element whose identity matches no entry is left unchanged. -/
theorem applyReset_not_mem (l : List (Nat × Item)) (c : Item)
    (h : ∀ p ∈ l, p.2.id ≠ c.id) : applyReset l c = c := by
  induction l with
  | nil => rfl
  | cons q l ih =>
    rw [applyReset, List.foldl_cons]
    have hq : ¬(c.id = q.2.id) := fun hh => h q (List.mem_cons_self q l) hh.symm
    rw [if_neg hq]
    exact ih fun p hp => h p (List.mem_cons_of_mem q hp)

/-- With pairwise distinct identities, an element matching entry `(i, v)`
gets exactly the style reset for visual position `i`. -/
theorem applyReset_mem (l : List (Nat × Item)) (c : Item) (i : Nat) (v : Item)
    (hnd : (l.map fun p => p.2.id).Nodup) (hmem : (i, v) ∈ l)
    (hid : v.id = c.id) :
    applyReset l c = { c with style := resetStyle i c.style } := by
  induction l with
  | nil => cases hmem
  | cons q l ih =>
    rcases List.nodup_cons.mp hnd with ⟨hq2, hnd2⟩
    have hq2b : q.2.id ∉ l.map fun p => p.2.id := hq2
    rw [applyReset, List.foldl_cons]
    rcases List.mem_cons.mp hmem with hq | hmem2
    · have hq1 : q.1 = i := by rw [← hq]
      have hqv : q.2 = v := by rw [← hq]
      rw [hqv, hq1, if_pos hid.symm]
      refine applyReset_not_mem l _ ?_
      intro p hp hh
      have hh2 : p.2.id = v.id := (show p.2.id = c.id from hh).trans hid.symm
      apply hq2b
      rw [hqv]
      exact hh2 ▸ List.mem_map_of_mem (fun p2 => p2.2.id) hp
    · have hqne : ¬(c.id = q.2.id) := by
        intro hh
        apply hq2b
        have hv : v.id ∈ l.map fun p => p.2.id :=
          List.mem_map_of_mem (fun p2 => p2.2.id) hmem2
        rw [hh.symm.trans hid.symm]
        exact hv
      rw [if_neg hqne]
      exact ih hnd2 hmem2

/-- The reset fold never changes an element's identity or geometry. -/
theorem applyReset_frame (l : List (Nat × Item)) (c : Item) :
    (applyReset l c).id = c.id ∧ (applyReset l c).bounds = c.bounds := by
  induction l generalizing c with
  | nil => exact ⟨rfl, rfl⟩
  | cons q l ih =>
    rw [applyReset, List.foldl_cons]
    by_cases h : c.id = q.2.id
    · rw [if_pos h]
      exact ih { c with style := resetStyle q.1 c.style }
    · rw [if_neg h]
      exact ih c

/-- Claim C6: after `resetPreviewPositions`, every item (each sits at its
original position `k` in the child list, with identity matching visual-order
position `i`) has its transform cleared, opacity cleared, transition
duration zeroed, and `order` equal to `i`, the item's position in the visual
order recomputed at the reset; running the reset again changes nothing. -/
theorem resetPreviewPositions_spec (children : List Item)
    (hnd : (children.map Item.id).Nodup) :
    (∀ (c v : Item) (k i : Nat),
      children[k]? = some c →
      (sortablesInVisualOrder children)[i]? = some v →
      c.id = v.id →
      (resetPreviewPositions children)[k]? = some
        { c with style := { c.style with
            transitionDuration := "0ms"
            transform := none
            opacity := none
            order := some i } }) ∧
    resetPreviewPositions (resetPreviewPositions children) =
      resetPreviewPositions children := by
  have hperm : List.Perm (sortablesInVisualOrder children) children :=
    List.mergeSort_perm children visualLe
  have hvsnd : ((sortablesInVisualOrder children).map Item.id).Nodup :=
    ((hperm.map Item.id).nodup_iff).mpr hnd
  have henum_ids : (sortablesInVisualOrder children).enum.map (fun p => p.2.id) =
      (sortablesInVisualOrder children).map Item.id := by
    have h2 : (sortablesInVisualOrder children).enum.map Prod.snd =
        sortablesInVisualOrder children := List.enumFrom_map_snd 0 _
    rw [show (fun p : Nat × Item => p.2.id) = Item.id ∘ Prod.snd from rfl,
      ← List.map_map, h2]
  have henumnd : ((sortablesInVisualOrder children).enum.map
      fun p => p.2.id).Nodup := by
    rw [henum_ids]
    exact hvsnd
  constructor
  · intro c v k i hck hvi hcid
    rw [resetPreviewPositions_eq_map, List.getElem?_map, hck]
    have hmem : (i, v) ∈ (sortablesInVisualOrder children).enum := by
      rw [List.mk_mem_enum_iff_get?, List.get?_eq_getElem?]
      exact hvi
    dsimp only [Option.map]
    rw [applyReset_mem _ c i v henumnd hmem hcid.symm]
    rfl
  · rw [resetPreviewPositions_eq_map children]
    rw [resetPreviewPositions_eq_map
      (children.map (applyReset (sortablesInVisualOrder children).enum))]
    have hfle : ∀ a b : Item,
        visualLe (applyReset (sortablesInVisualOrder children).enum a)
          (applyReset (sortablesInVisualOrder children).enum b) = visualLe a b := by
      intro a b
      unfold visualLe
      rw [(applyReset_frame (sortablesInVisualOrder children).enum a).2,
        (applyReset_frame (sortablesInVisualOrder children).enum b).2]
    have hvs2 : sortablesInVisualOrder
        (children.map (applyReset (sortablesInVisualOrder children).enum)) =
        (sortablesInVisualOrder children).map
          (applyReset (sortablesInVisualOrder children).enum) := by
      unfold sortablesInVisualOrder
      exact mergeSort_map_comm _ visualLe hfle children
    rw [hvs2, List.map_map]
    refine List.map_congr_left ?_
    intro c hc
    have hcv : c ∈ sortablesInVisualOrder children := hperm.mem_iff.mpr hc
    obtain ⟨i, hiv⟩ := List.mem_iff_getElem?.mp hcv
    have hmem1 : (i, c) ∈ (sortablesInVisualOrder children).enum := by
      rw [List.mk_mem_enum_iff_get?, List.get?_eq_getElem?]
      exact hiv
    have hfc : applyReset (sortablesInVisualOrder children).enum c =
        { c with style := resetStyle i c.style } :=
      applyReset_mem _ c i c henumnd hmem1 rfl
    have hnd3 : (((sortablesInVisualOrder children).map
        (applyReset (sortablesInVisualOrder children).enum)).enum.map
          fun p => p.2.id).Nodup := by
      have hA : ((sortablesInVisualOrder children).map
          (applyReset (sortablesInVisualOrder children).enum)).enum.map
            (fun p => p.2.id) =
          ((sortablesInVisualOrder children).map
            (applyReset (sortablesInVisualOrder children).enum)).map Item.id := by
        have h2 : ∀ l : List Item, l.enum.map Prod.snd = l :=
          fun l => List.enumFrom_map_snd 0 l
        rw [show (fun p : Nat × Item => p.2.id) = Item.id ∘ Prod.snd from rfl,
          ← List.map_map, h2]
      rw [hA, List.map_map]
      have hB : (sortablesInVisualOrder children).map
          (Item.id ∘ applyReset (sortablesInVisualOrder children).enum) =
          (sortablesInVisualOrder children).map Item.id :=
        List.map_congr_left fun x _ =>
          (applyReset_frame (sortablesInVisualOrder children).enum x).1
      rw [hB]
      exact hvsnd
    have hmem2 : (i, applyReset (sortablesInVisualOrder children).enum c) ∈
        ((sortablesInVisualOrder children).map
          (applyReset (sortablesInVisualOrder children).enum)).enum := by
      rw [List.mk_mem_enum_iff_get?, List.get?_eq_getElem?, List.getElem?_map,
        hiv]
      rfl
    have happ2 := applyReset_mem _
      (applyReset (sortablesInVisualOrder children).enum c) i
      (applyReset (sortablesInVisualOrder children).enum c) hnd3 hmem2 rfl
    rw [Function.comp_apply, happ2, hfc]
    rfl

/-- Witness for C6 on the two stacked example items (already in visual
order): the second child ends with cleared transform and opacity, zeroed
transition duration, and placement index 1. -/
theorem resetPreviewPositions_spec_witness :
    (resetPreviewPositions [exItem 0 0 0, exItem 1 20 0])[1]? = some
      { exItem 1 20 0 with style := { (exItem 1 20 0).style with
          transitionDuration := "0ms"
          transform := none
          opacity := none
          order := some 1 } } := by
  refine (resetPreviewPositions_spec [exItem 0 0 0, exItem 1 20 0] (by decide)).1
    (exItem 1 20 0) (exItem 1 20 0) 1 1 rfl ?_ rfl
  rw [exPair_visualOrder]
  rfl

end ManualSort
